import Mathlib

/-!
# Smart Parking System — verification of the core slot manager

Shallow embedding of `src/main.py` (class `ParkingLotManager` and its data
model).  Python objects become Lean structures; in-place mutation becomes
explicit state passing; `time.time()` becomes an explicit `now : ℚ`
parameter; Python `dict` keyed by `VehicleType` becomes an association list
(`List (VehicleType × _)`) with first-match lookup, whose keys are unique
because Python dict keys are.  The `threading.Lock` discipline is modelled
separately (see `acquireLock` below); the state-transition functions embed
the sequential bodies of the critical sections.
-/

namespace SmartParking

/-- `class VehicleType(Enum)`: CAR, MOTORCYCLE, TRUCK. -/
inductive VehicleType where
  | CAR
  | MOTORCYCLE
  | TRUCK
deriving DecidableEq, Repr

/-- Python `vehicle_type.name` — the member name of the enum value. -/
def VehicleType.name : VehicleType → String
  | .CAR => "CAR"
  | .MOTORCYCLE => "MOTORCYCLE"
  | .TRUCK => "TRUCK"

/-- `class SlotStatus(Enum)`: AVAILABLE, OCCUPIED, RESERVED.  `RESERVED` is
declared in the source but never assigned by any operation. -/
inductive SlotStatus where
  | AVAILABLE
  | OCCUPIED
  | RESERVED
deriving DecidableEq, Repr

/-- `@dataclass class Vehicle`.  `entry_time` is stamped with `time.time()`
when the Python object is constructed; we carry it as an explicit field.
Timestamps are rationals (Python floats at the granularity the claims use
are exact). -/
structure Vehicle where
  vehicle_id : String
  license_plate : String
  vehicle_type : VehicleType
  owner_name : String
  entry_time : ℚ
  parking_slot_id : Option String
deriving DecidableEq, Repr

/-- `class ParkingSlot`.  The `next_slot` / `prev_slot` doubly-linked-list
pointers of the source are omitted: no operation ever reads them — every
scan iterates the Python list `self.slots[vehicle_type]`, whose order the
embedding keeps. -/
structure ParkingSlot where
  slot_id : String
  vehicle_type : VehicleType
  status : SlotStatus
  vehicle : Option Vehicle
  reservation_time : Option ℚ
deriving DecidableEq, Repr

/-- `class ParkingLotManager` state: `self.slots` and `self.total_slots`
(insertion-ordered dicts, embedded as association lists with unique keys).
`self.users` and `self.lock` carry no slot state; the lock discipline is
modelled separately below. -/
structure ParkingLotManager where
  slots : List (VehicleType × List ParkingSlot)
  total_slots : List (VehicleType × Nat)
deriving DecidableEq, Repr

/-- First-match association-list lookup — Python `dict` access.  (Python
dicts cannot hold a key twice, so on states built by the embedding the
first match is the only match.) -/
def dictGet {α : Type} : List (VehicleType × α) → VehicleType → Option α
  | [], _ => none
  | (k, a) :: rest, vt => if k = vt then some a else dictGet rest vt

/-- `f"{vehicle_type.name}_SLOT_{i+1}"`. -/
def slotName (vt : VehicleType) (k : Nat) : String :=
  vt.name ++ "_SLOT_" ++ toString k

/-- The slot as `_initialize_slots` constructs it: all Available, no
vehicle, no reservation time. -/
def freshSlot (vt : VehicleType) (k : Nat) : ParkingSlot :=
  { slot_id := slotName vt k
    vehicle_type := vt
    status := SlotStatus.AVAILABLE
    vehicle := none
    reservation_time := none }

/-- The `for i in range(count)` loop body of `_initialize_slots` for one
category. -/
def makeSlots (vt : VehicleType) (count : Nat) : List ParkingSlot :=
  (List.range count).map (fun i => freshSlot vt (i + 1))

/-- `ParkingLotManager.__init__` / `_initialize_slots`: for each configured
category record its capacity in `total_slots` and build its slot list. -/
def initManager (config : List (VehicleType × Nat)) : ParkingLotManager :=
  { slots := config.map (fun p => (p.1, makeSlots p.1 p.2))
    total_slots := config }

/-- `self.slots.get(vehicle_type, [])`. -/
def lookupSlots (m : ParkingLotManager) (vt : VehicleType) : List ParkingSlot :=
  (dictGet m.slots vt).getD []

/-- `self.total_slots[vehicle_type]`.  The Python indexing would raise
`KeyError` on a missing key; every call site in the source is reached only
after an available slot of the category was found, so the key is present
there and the `getD 0` default is never exercised on those paths. -/
def totalSlotsOf (m : ParkingLotManager) (vt : VehicleType) : Nat :=
  (dictGet m.total_slots vt).getD 0

/-- `slot.status == SlotStatus.AVAILABLE`. -/
def isAvailable (s : ParkingSlot) : Bool :=
  decide (s.status = SlotStatus.AVAILABLE)

/-- `slot.status == SlotStatus.OCCUPIED`. -/
def isOccupied (s : ParkingSlot) : Bool :=
  decide (s.status = SlotStatus.OCCUPIED)

/-- Body of `find_available_slot`: first slot of the category with status
Available, or `None`. -/
def find_available_slot (m : ParkingLotManager) (vt : VehicleType) :
    Option ParkingSlot :=
  (lookupSlots m vt).find? isAvailable

/-- `sum(1 for s in self.slots[vehicle_type] if s.status == OCCUPIED)`. -/
def occupiedCount (m : ParkingLotManager) (vt : VehicleType) : Nat :=
  (lookupSlots m vt).countP isOccupied

/-- The in-place mutation `slot.status = OCCUPIED; slot.vehicle = vehicle;
slot.reservation_time = time.time()` applied to one slot.  Because Python
stores a reference and then sets `vehicle.parking_slot_id`, the stored
vehicle is the updated one (`v2`). -/
def occSlot (s : ParkingSlot) (v2 : Vehicle) (now : ℚ) : ParkingSlot :=
  { s with status := SlotStatus.OCCUPIED
           vehicle := some v2
           reservation_time := some now }

/-- Effect on the category list of mutating the object returned by the
Available-scan: the first Available slot becomes occupied, all others are
untouched. -/
def occupyFirst (l : List ParkingSlot) (v2 : Vehicle) (now : ℚ) :
    List ParkingSlot :=
  match l with
  | [] => []
  | s :: rest =>
      if s.status = SlotStatus.AVAILABLE then occSlot s v2 now :: rest
      else s :: occupyFirst rest v2 now

/-- One dict entry after the list object held under key `vt` was mutated:
the entry keyed `vt` now holds `newL`, all others are untouched. -/
def updateEntry (vt : VehicleType) (newL : List ParkingSlot)
    (p : VehicleType × List ParkingSlot) : VehicleType × List ParkingSlot :=
  if p.1 = vt then (p.1, newL) else p

/-- Replace the value stored under key `vt` (mutation of the list object
held in `self.slots[vt]`). -/
def updateCategory (m : ParkingLotManager) (vt : VehicleType)
    (newL : List ParkingSlot) : ParkingLotManager :=
  { m with slots := m.slots.map (updateEntry vt newL) }

/-- Sequential body of `park_vehicle` (the code inside `with self.lock:`).
Returns, in order: the value `return`ed to the caller, the caller's vehicle
object after the call (Python mutates it in place), and the manager state
after the call. -/
def park_vehicle (m : ParkingLotManager) (v : Vehicle) (now : ℚ) :
    Option ParkingSlot × Vehicle × ParkingLotManager :=
  match find_available_slot m v.vehicle_type with
  | none => (none, v, m)
  | some s =>
      if totalSlotsOf m v.vehicle_type ≤ occupiedCount m v.vehicle_type then
        (none, v, m)
      else
        let v2 := { v with parking_slot_id := some s.slot_id }
        (some (occSlot s v2 now), v2,
          updateCategory m v.vehicle_type
            (occupyFirst (lookupSlots m v.vehicle_type) v2 now))

/-- The in-place mutation of `remove_vehicle` on the found slot:
`slot.status = AVAILABLE; slot.vehicle = None; slot.reservation_time = None`. -/
def clearSlot (s : ParkingSlot) : ParkingSlot :=
  { s with status := SlotStatus.AVAILABLE
           vehicle := none
           reservation_time := none }

/-- Inner loop of `remove_vehicle` over one category's slot list: find the
first slot with the given id AND status Occupied, clear it, hand back its
`vehicle` field; `none` when no slot of this list matches. -/
def removeFromList (l : List ParkingSlot) (sid : String) :
    Option (Option Vehicle × List ParkingSlot) :=
  match l with
  | [] => none
  | s :: rest =>
      if s.slot_id = sid ∧ s.status = SlotStatus.OCCUPIED then
        some (s.vehicle, clearSlot s :: rest)
      else
        match removeFromList rest sid with
        | some (v, rest2) => some (v, s :: rest2)
        | none => none

/-- Outer loop of `remove_vehicle` over `self.slots.values()`. -/
def removeFromCategories (cats : List (VehicleType × List ParkingSlot))
    (sid : String) : Option Vehicle × List (VehicleType × List ParkingSlot) :=
  match cats with
  | [] => (none, [])
  | (vt, l) :: rest =>
      match removeFromList l sid with
      | some (v, l2) => (v, (vt, l2) :: rest)
      | none =>
          let r := removeFromCategories rest sid
          (r.1, (vt, l) :: r.2)

/-- Sequential body of `remove_vehicle` (the code inside `with self.lock:`):
returns the `Optional[Vehicle]` handed to the caller and the state after. -/
def remove_vehicle (m : ParkingLotManager) (sid : String) :
    Option Vehicle × ParkingLotManager :=
  let r := removeFromCategories m.slots sid
  (r.1, { m with slots := r.2 })

/-!
## Lock discipline

`self.lock = threading.Lock()` is a NON-reentrant mutex.  We model the
lock state visible to one caller as a `Bool` (`true` = this caller already
holds it); `acquireLock` on a held lock blocks the caller forever
(deadlock), modelled as `none`.  `find_available_slot` and `park_vehicle`
each open their own `with self.lock:` block, so a `park_vehicle` call
acquires the lock and then re-enters `find_available_slot`, which tries to
acquire it again.
-/

/-- Acquiring `threading.Lock` while the same caller already holds it
blocks forever; otherwise it succeeds and the lock is now held. -/
def acquireLock (locked : Bool) : Option Bool :=
  if locked then none else some true

/-- `find_available_slot` including its `with self.lock:` block: acquires
the lock, scans, releases.  `none` = the call never returns. -/
def find_available_slot_sync (locked : Bool) (m : ParkingLotManager)
    (vt : VehicleType) : Option (Option ParkingSlot × Bool) :=
  match acquireLock locked with
  | none => none
  | some _ => some (find_available_slot m vt, false)

/-- `park_vehicle` including its `with self.lock:` block and the nested
locked call to `find_available_slot`.  `none` = the call never returns. -/
def park_vehicle_sync (locked : Bool) (m : ParkingLotManager) (v : Vehicle)
    (now : ℚ) :
    Option ((Option ParkingSlot × Vehicle × ParkingLotManager) × Bool) :=
  match acquireLock locked with
  | none => none
  | some lockedIn =>
      match find_available_slot_sync lockedIn m v.vehicle_type with
      | none => none
      | some (slotRes, _) =>
          match slotRes with
          | none => some ((none, v, m), false)
          | some s =>
              if totalSlotsOf m v.vehicle_type ≤
                  occupiedCount m v.vehicle_type then
                some ((none, v, m), false)
              else
                let v2 := { v with parking_slot_id := some s.slot_id }
                some ((some (occSlot s v2 now), v2,
                  updateCategory m v.vehicle_type
                    (occupyFirst (lookupSlots m v.vehicle_type) v2 now)),
                  false)

/-- `remove_vehicle` including its single `with self.lock:` block. -/
def remove_vehicle_sync (locked : Bool) (m : ParkingLotManager)
    (sid : String) : Option ((Option Vehicle × ParkingLotManager) × Bool) :=
  match acquireLock locked with
  | none => none
  | some _ => some (remove_vehicle m sid, false)

/-- `hourly_rate = 5.0` — the rate is a constant of `get_parking_fee`. -/
def hourly_rate : ℚ := 5

/-- `get_parking_fee`: `duration = time.time() - vehicle.entry_time;
return max(hourly_rate * (duration / 3600), hourly_rate)`.  `now` stands
for `time.time()` at the call. -/
def get_parking_fee (now : ℚ) (v : Vehicle) : ℚ :=
  max (hourly_rate * ((now - v.entry_time) / 3600)) hourly_rate

/-!
## Reachability and invariants
-/

/-- Manager states reachable from `__init__` by any sequence of
`park_vehicle` / `remove_vehicle` calls.  The configuration is an
arbitrary capacity map; its keys are distinct because it is a Python
dict. -/
inductive Reachable : ParkingLotManager → Prop where
  | init (config : List (VehicleType × Nat))
      (hnd : (config.map Prod.fst).Nodup) : Reachable (initManager config)
  | park (m : ParkingLotManager) (v : Vehicle) (now : ℚ) :
      Reachable m → Reachable (park_vehicle m v now).2.2
  | remove (m : ParkingLotManager) (sid : String) :
      Reachable m → Reachable (remove_vehicle m sid).2

/-- The per-slot occupancy coherence: occupant present iff Occupied iff
reservation time present. -/
def SlotInv (s : ParkingSlot) : Prop :=
  (s.vehicle ≠ none ↔ s.status = SlotStatus.OCCUPIED) ∧
  (s.status = SlotStatus.OCCUPIED ↔ s.reservation_time ≠ none)

/-- The slot identities `_initialize_slots` creates for a category of
capacity `n`, in creation (ascending sequence-number) order. -/
def canonicalIds (vt : VehicleType) (n : Nat) : List String :=
  (List.range n).map (fun i => slotName vt (i + 1))

/-- State invariant maintained by every reachable state: dict keys are
distinct, every slot is occupancy-coherent, and every category list still
consists of the slots created at initialization, in creation order, with
the recorded capacity as its length. -/
structure Inv (m : ParkingLotManager) : Prop where
  keys_nodup : (m.slots.map Prod.fst).Nodup
  slotinv : ∀ vt l, (vt, l) ∈ m.slots → ∀ s ∈ l, SlotInv s
  ids : ∀ vt l, (vt, l) ∈ m.slots →
    l.map ParkingSlot.slot_id = canonicalIds vt (totalSlotsOf m vt)

/-!
## Concrete states used as witnesses and counterexamples
-/

/-- A vehicle created (entry time stamped) at `t = 0`. -/
def vAlice : Vehicle :=
  { vehicle_id := "V-A"
    license_plate := "KA-01"
    vehicle_type := VehicleType.CAR
    owner_name := "Alice"
    entry_time := 0
    parking_slot_id := none }

/-- A second car, created at `t = 10`. -/
def vBob : Vehicle :=
  { vehicle_id := "V-B"
    license_plate := "KA-02"
    vehicle_type := VehicleType.CAR
    owner_name := "Bob"
    entry_time := 10
    parking_slot_id := none }

/-- A motorcycle — its category is not configured in `mOne`. -/
def vMoto : Vehicle :=
  { vehicle_id := "V-M"
    license_plate := "KA-03"
    vehicle_type := VehicleType.MOTORCYCLE
    owner_name := "Mallory"
    entry_time := 0
    parking_slot_id := none }

/-- The identifier of the single CAR slot of a `{CAR: 1}` pool. -/
def slotIdOne : String := "CAR_SLOT_1"

/-- A slot identifier that is never issued by any pool. -/
def ghostId : String := "GHOST"

/-- Manager initialized with `{CAR: 1}`. -/
def mOne : ParkingLotManager := initManager [(VehicleType.CAR, 1)]

/-- The single CAR slot of `mOne` as created, still Available. -/
def slotFresh : ParkingSlot := freshSlot VehicleType.CAR 1

/-- `mOne` after parking `vAlice` at time `7200`: the single CAR slot is
Occupied, its `reservation_time` is `7200`, while the stored vehicle's
`entry_time` is still `0` (vehicle-creation time). -/
def mParked : ParkingLotManager := (park_vehicle mOne vAlice 7200).2.2

/-- `vAlice` as `park_vehicle` leaves it (slot id recorded in place). -/
def vAliceParked : Vehicle := { vAlice with parking_slot_id := some slotIdOne }

/-- The single CAR slot of `mParked`. -/
def slotParked : ParkingSlot :=
  { slot_id := slotIdOne
    vehicle_type := VehicleType.CAR
    status := SlotStatus.OCCUPIED
    vehicle := some vAliceParked
    reservation_time := some 7200 }

/-!
## Helper lemmas
-/

theorem dictGet_mem {α : Type} {d : List (VehicleType × α)} {vt : VehicleType}
    {a : α} (h : dictGet d vt = some a) : (vt, a) ∈ d := by
  induction d with
  | nil => simp [dictGet] at h
  | cons x xs ih =>
      obtain ⟨k, b⟩ := x
      by_cases hk : k = vt
      · subst hk
        rw [dictGet, if_pos rfl] at h
        injection h with h
        subst h
        exact List.mem_cons_self _ _
      · rw [dictGet, if_neg hk] at h
        exact List.mem_cons_of_mem _ (ih h)

theorem mem_dictGet {α : Type} {d : List (VehicleType × α)} {vt : VehicleType}
    {a : α} (hnd : (d.map Prod.fst).Nodup) (h : (vt, a) ∈ d) :
    dictGet d vt = some a := by
  induction d with
  | nil => simp at h
  | cons x xs ih =>
      obtain ⟨k, b⟩ := x
      obtain ⟨hk, hnd2⟩ :=
        List.nodup_cons.mp (show (k :: xs.map Prod.fst).Nodup from hnd)
      rcases List.mem_cons.mp h with heq | hmem
      · injection heq with h1 h2
        subst h1; subst h2
        rw [dictGet, if_pos rfl]
      · have hkv : k ≠ vt := by
          intro hkv
          subst hkv
          exact hk (List.mem_map_of_mem Prod.fst hmem)
        rw [dictGet, if_neg hkv]
        exact ih hnd2 hmem

theorem find_eq_some_decomp {α : Type} (p : α → Bool) (l : List α) (a : α)
    (h : l.find? p = some a) :
    ∃ l₁ l₂, l = l₁ ++ a :: l₂ ∧ (∀ t ∈ l₁, p t = false) ∧ p a = true := by
  induction l with
  | nil => simp at h
  | cons x xs ih =>
      by_cases hx : p x
      · rw [List.find?_cons_of_pos _ hx] at h
        injection h with h
        subst h
        exact ⟨[], xs, rfl, by simp, hx⟩
      · rw [List.find?_cons_of_neg _ hx] at h
        obtain ⟨l₁, l₂, rfl, h₁, h₂⟩ := ih h
        refine ⟨x :: l₁, l₂, rfl, ?_, h₂⟩
        intro t ht
        rcases List.mem_cons.mp ht with rfl | ht
        · exact Bool.eq_false_iff.mpr hx
        · exact h₁ t ht

theorem occupyFirst_append (l₁ l₂ : List ParkingSlot) (s : ParkingSlot)
    (v2 : Vehicle) (now : ℚ) (h₁ : ∀ t ∈ l₁, isAvailable t = false)
    (hs : s.status = SlotStatus.AVAILABLE) :
    occupyFirst (l₁ ++ s :: l₂) v2 now = l₁ ++ occSlot s v2 now :: l₂ := by
  induction l₁ with
  | nil => simp [occupyFirst, hs]
  | cons x xs ih =>
      have hx : ¬x.status = SlotStatus.AVAILABLE := by
        have := h₁ x (List.mem_cons_self _ _)
        simpa [isAvailable] using this
      simp only [List.cons_append, occupyFirst, if_neg hx]
      exact congrArg (fun r => x :: r)
        (ih (fun t ht => h₁ t (List.mem_cons_of_mem _ ht)))

theorem removeFromList_spec (l : List ParkingSlot) (sid : String) :
    (removeFromList l sid = none ∧
      ∀ s ∈ l, ¬(s.slot_id = sid ∧ s.status = SlotStatus.OCCUPIED)) ∨
    (∃ l₁ s l₂, l = l₁ ++ s :: l₂ ∧ s.slot_id = sid ∧
      s.status = SlotStatus.OCCUPIED ∧
      removeFromList l sid = some (s.vehicle, l₁ ++ clearSlot s :: l₂)) := by
  induction l with
  | nil => left; exact ⟨rfl, by simp⟩
  | cons x xs ih =>
      by_cases hx : x.slot_id = sid ∧ x.status = SlotStatus.OCCUPIED
      · right
        exact ⟨[], x, xs, rfl, hx.1, hx.2, by simp [removeFromList, hx]⟩
      · rcases ih with ⟨hn, hall⟩ | ⟨l₁, s, l₂, rfl, h1, h2, hr⟩
        · left
          refine ⟨by simp [removeFromList, hx, hn], ?_⟩
          intro s hs
          rcases List.mem_cons.mp hs with rfl | hs
          · exact hx
          · exact hall s hs
        · right
          exact ⟨x :: l₁, s, l₂, rfl, h1, h2, by simp [removeFromList, hx, hr]⟩

theorem removeFromCategories_spec
    (cats : List (VehicleType × List ParkingSlot)) (sid : String) :
    (removeFromCategories cats sid = (none, cats) ∧
      ∀ vt l, (vt, l) ∈ cats → ∀ s ∈ l,
        ¬(s.slot_id = sid ∧ s.status = SlotStatus.OCCUPIED)) ∨
    (∃ cats₁ vt l₁ s l₂ cats₂,
      cats = cats₁ ++ (vt, l₁ ++ s :: l₂) :: cats₂ ∧ s.slot_id = sid ∧
      s.status = SlotStatus.OCCUPIED ∧
      removeFromCategories cats sid =
        (s.vehicle, cats₁ ++ (vt, l₁ ++ clearSlot s :: l₂) :: cats₂)) := by
  induction cats with
  | nil => left; exact ⟨rfl, by simp⟩
  | cons c rest ih =>
      obtain ⟨vt, l⟩ := c
      rcases removeFromList_spec l sid with ⟨hn, hall⟩ | ⟨l₁, s, l₂, rfl, h1, h2, hr⟩
      · rcases ih with ⟨hnr, hallr⟩ | ⟨cats₁, vt2, l₁, s, l₂, cats₂, rfl, h1, h2, hr⟩
        · left
          refine ⟨by simp [removeFromCategories, hn, hnr], ?_⟩
          intro vt2 l2 hmem
          rcases List.mem_cons.mp hmem with heq | hmem
          · injection heq with hv hl
            subst hl
            exact hall
          · exact hallr _ _ hmem
        · right
          exact ⟨(vt, l) :: cats₁, vt2, l₁, s, l₂, cats₂, rfl, h1, h2,
            by simp [removeFromCategories, hn, hr]⟩
      · right
        exact ⟨[], vt, l₁, s, l₂, rest, rfl, h1, h2,
          by simp [removeFromCategories, hr]⟩

theorem updateEntry_pair (vt : VehicleType) (newL : List ParkingSlot)
    (k : VehicleType) (b : List ParkingSlot) :
    updateEntry vt newL (k, b) = if k = vt then (k, newL) else (k, b) := rfl

theorem map_fst_update (d : List (VehicleType × List ParkingSlot))
    (vt : VehicleType) (newL : List ParkingSlot) :
    (d.map (updateEntry vt newL)).map Prod.fst = d.map Prod.fst := by
  induction d with
  | nil => rfl
  | cons x xs ih =>
      obtain ⟨k, b⟩ := x
      rw [List.map_cons, updateEntry_pair]
      by_cases h : k = vt <;> simp [h, ih]

theorem mem_update_cases {d : List (VehicleType × List ParkingSlot)}
    {vt : VehicleType} {newL : List ParkingSlot}
    {q : VehicleType × List ParkingSlot}
    (h : q ∈ d.map (updateEntry vt newL)) :
    (q.1 = vt ∧ q.2 = newL) ∨ q ∈ d := by
  obtain ⟨p, hp, heq⟩ := List.mem_map.mp h
  by_cases hpv : p.1 = vt
  · left
    rw [updateEntry, if_pos hpv] at heq
    subst heq
    exact ⟨hpv, rfl⟩
  · right
    rw [updateEntry, if_neg hpv] at heq
    subst heq
    exact hp

theorem dictGet_update_self {d : List (VehicleType × List ParkingSlot)}
    {vt : VehicleType} {l : List ParkingSlot} (h : dictGet d vt = some l)
    (newL : List ParkingSlot) :
    dictGet (d.map (updateEntry vt newL)) vt = some newL := by
  induction d with
  | nil => simp [dictGet] at h
  | cons x xs ih =>
      obtain ⟨k, b⟩ := x
      rw [List.map_cons, updateEntry_pair]
      by_cases hk : k = vt
      · rw [if_pos hk, dictGet, if_pos hk]
      · rw [dictGet, if_neg hk] at h
        rw [if_neg hk, dictGet, if_neg hk]
        exact ih h

/-- `park_vehicle` either fails and returns the state and the vehicle
untouched, or the category list splits around its first Available slot,
which is the one that gets occupied. -/
theorem park_shape (m : ParkingLotManager) (v : Vehicle) (now : ℚ) :
    ((park_vehicle m v now).1 = none ∧ (park_vehicle m v now).2.1 = v ∧
      (park_vehicle m v now).2.2 = m) ∨
    (∃ l0 l₁ s l₂,
      dictGet m.slots v.vehicle_type = some l0 ∧ l0 = l₁ ++ s :: l₂ ∧
      (∀ t ∈ l₁, t.status ≠ SlotStatus.AVAILABLE) ∧
      s.status = SlotStatus.AVAILABLE ∧
      ¬(totalSlotsOf m v.vehicle_type ≤ occupiedCount m v.vehicle_type) ∧
      (park_vehicle m v now).1 =
        some (occSlot s { v with parking_slot_id := some s.slot_id } now) ∧
      (park_vehicle m v now).2.1 = { v with parking_slot_id := some s.slot_id } ∧
      (park_vehicle m v now).2.2 =
        updateCategory m v.vehicle_type
          (l₁ ++ occSlot s { v with parking_slot_id := some s.slot_id } now
            :: l₂)) := by
  rcases hf : find_available_slot m v.vehicle_type with _ | s
  · left
    refine ⟨?_, ?_, ?_⟩ <;> simp [park_vehicle, hf]
  · by_cases hcap : totalSlotsOf m v.vehicle_type ≤ occupiedCount m v.vehicle_type
    · left
      refine ⟨?_, ?_, ?_⟩ <;> simp [park_vehicle, hf, hcap]
    · right
      have hex : ∃ l0, dictGet m.slots v.vehicle_type = some l0 := by
        rcases hdm : dictGet m.slots v.vehicle_type with _ | l0
        · exfalso
          rw [find_available_slot, lookupSlots, hdm] at hf
          simp at hf
        · exact ⟨l0, rfl⟩
      obtain ⟨l0, hd⟩ := hex
      · have hls : lookupSlots m v.vehicle_type = l0 := by
          rw [lookupSlots, hd]; rfl
        have hfind : l0.find? isAvailable = some s := by
          rw [find_available_slot, hls] at hf; exact hf
        obtain ⟨l₁, l₂, hsplit, h₁, h₂⟩ :=
          find_eq_some_decomp isAvailable l0 s hfind
        have hsA : s.status = SlotStatus.AVAILABLE := by
          simpa [isAvailable] using h₂
        have h₁n : ∀ t ∈ l₁, t.status ≠ SlotStatus.AVAILABLE := by
          intro t ht
          have := h₁ t ht
          simpa [isAvailable] using this
        have hoc :
            occupyFirst (lookupSlots m v.vehicle_type)
              { v with parking_slot_id := some s.slot_id } now =
            l₁ ++ occSlot s { v with parking_slot_id := some s.slot_id } now
              :: l₂ := by
          rw [hls, hsplit]
          exact occupyFirst_append _ _ _ _ _ h₁ hsA
        refine ⟨l0, l₁, s, l₂, hd, hsplit, h₁n, hsA, hcap, ?_, ?_, ?_⟩
        · simp [park_vehicle, hf, hcap]
        · simp [park_vehicle, hf, hcap]
        · rw [show (park_vehicle m v now).2.2 =
              updateCategory m v.vehicle_type
                (occupyFirst (lookupSlots m v.vehicle_type)
                  { v with parking_slot_id := some s.slot_id } now) from by
            simp [park_vehicle, hf, hcap]]
          rw [hoc]

theorem inv_init (config : List (VehicleType × Nat))
    (hnd : (config.map Prod.fst).Nodup) : Inv (initManager config) := by
  refine ⟨?_, ?_, ?_⟩
  · have : (initManager config).slots.map Prod.fst = config.map Prod.fst := by
      rw [initManager]
      rw [List.map_map]
      rfl
    rw [this]
    exact hnd
  · intro vt l hmem s hs
    obtain ⟨p, hp, heq⟩ := List.mem_map.mp hmem
    injection heq with h1 h2
    subst h1; subst h2
    obtain ⟨i, hi, rfl⟩ := List.mem_map.mp hs
    simp [SlotInv, freshSlot]
  · intro vt l hmem
    obtain ⟨p, hp, heq⟩ := List.mem_map.mp hmem
    injection heq with h1 h2
    subst h1; subst h2
    have hdg : dictGet config p.1 = some p.2 :=
      mem_dictGet hnd (by rcases p with ⟨a, b⟩; exact hp)
    have htot : totalSlotsOf (initManager config) p.1 = p.2 := by
      rw [totalSlotsOf, initManager]
      rw [hdg]
      rfl
    rw [htot, makeSlots, canonicalIds, List.map_map]
    rfl

theorem inv_park {m : ParkingLotManager} (h : Inv m) (v : Vehicle) (now : ℚ) :
    Inv (park_vehicle m v now).2.2 := by
  rcases park_shape m v now with ⟨_, _, hst⟩ |
    ⟨l0, l₁, s, l₂, hd, hsplit, h₁n, hsA, hcap, hres, hveh, hst⟩
  · rw [hst]; exact h
  · rw [hst]
    have hmem0 : (v.vehicle_type, l0) ∈ m.slots := dictGet_mem hd
    refine ⟨?_, ?_, ?_⟩
    · rw [updateCategory, map_fst_update]
      exact h.keys_nodup
    · intro vt2 l2 hmem s2 hs2
      rcases mem_update_cases hmem with ⟨hvt, hl⟩ | hold
      · subst hl
        rcases List.mem_append.mp hs2 with hin | hin
        · exact h.slotinv _ _ hmem0 s2 (by rw [hsplit]; exact List.mem_append_left _ hin)
        · rcases List.mem_cons.mp hin with rfl | hin
          · simp [SlotInv, occSlot]
          · exact h.slotinv _ _ hmem0 s2
              (by rw [hsplit]; exact List.mem_append_right _ (List.mem_cons_of_mem _ hin))
      · exact h.slotinv _ _ hold s2 hs2
    · intro vt2 l2 hmem
      have htot : ∀ vt3, totalSlotsOf (updateCategory m v.vehicle_type
          (l₁ ++ occSlot s { v with parking_slot_id := some s.slot_id } now :: l₂)) vt3
          = totalSlotsOf m vt3 := by
        intro vt3
        rfl
      rw [htot]
      rcases mem_update_cases hmem with ⟨hvt, hl⟩ | hold
      · subst hl
        obtain ⟨rfl⟩ : vt2 = v.vehicle_type := hvt
        have hids := h.ids _ _ hmem0
        rw [hsplit] at hids
        rw [← hids]
        simp [occSlot]
      · exact h.ids _ _ hold

theorem inv_remove {m : ParkingLotManager} (h : Inv m) (sid : String) :
    Inv (remove_vehicle m sid).2 := by
  rcases removeFromCategories_spec m.slots sid with ⟨hn, _⟩ |
    ⟨cats₁, vt, l₁, s, l₂, cats₂, hcats, h1, h2, hr⟩
  · have hst : (remove_vehicle m sid).2 = m := by
      rw [remove_vehicle]
      rw [hn]
    rw [hst]; exact h
  · have hst : (remove_vehicle m sid).2 =
        { m with slots := cats₁ ++ (vt, l₁ ++ clearSlot s :: l₂) :: cats₂ } := by
      rw [remove_vehicle]
      rw [hr]
    rw [hst]
    have hmem0 : (vt, l₁ ++ s :: l₂) ∈ m.slots := by
      rw [hcats]
      exact List.mem_append_right _ (List.mem_cons_self _ _)
    refine ⟨?_, ?_, ?_⟩
    · have : (cats₁ ++ (vt, l₁ ++ clearSlot s :: l₂) :: cats₂).map Prod.fst =
          m.slots.map Prod.fst := by
        rw [hcats]
        simp
      rw [show ({ m with slots := cats₁ ++ (vt, l₁ ++ clearSlot s :: l₂) :: cats₂ }
          : ParkingLotManager).slots = cats₁ ++ (vt, l₁ ++ clearSlot s :: l₂) :: cats₂
          from rfl, this]
      exact h.keys_nodup
    · intro vt2 l2 hmem s2 hs2
      rcases List.mem_append.mp hmem with hin | hin
      · have hmm : (vt2, l2) ∈ m.slots := by
          rw [hcats]
          exact List.mem_append_left _ hin
        exact h.slotinv _ _ hmm s2 hs2
      · rcases List.mem_cons.mp hin with heq | hin
        · injection heq with hv hl
          subst hv; subst hl
          rcases List.mem_append.mp hs2 with hin2 | hin2
          · exact h.slotinv _ _ hmem0 s2 (List.mem_append_left _ hin2)
          · rcases List.mem_cons.mp hin2 with rfl | hin2
            · simp [SlotInv, clearSlot]
            · exact h.slotinv _ _ hmem0 s2
                (List.mem_append_right _ (List.mem_cons_of_mem _ hin2))
        · have hmm : (vt2, l2) ∈ m.slots := by
            rw [hcats]
            exact List.mem_append_right _ (List.mem_cons_of_mem _ hin)
          exact h.slotinv _ _ hmm s2 hs2
    · intro vt2 l2 hmem
      have htot : ∀ vt3, totalSlotsOf
          { m with slots := cats₁ ++ (vt, l₁ ++ clearSlot s :: l₂) :: cats₂ } vt3
          = totalSlotsOf m vt3 := fun vt3 => rfl
      rw [htot]
      rcases List.mem_append.mp hmem with hin | hin
      · have hmm : (vt2, l2) ∈ m.slots := by
          rw [hcats]
          exact List.mem_append_left _ hin
        exact h.ids _ _ hmm
      · rcases List.mem_cons.mp hin with heq | hin
        · injection heq with hv hl
          subst hv; subst hl
          have hids := h.ids _ _ hmem0
          rw [← hids]
          simp [clearSlot]
        · have hmm : (vt2, l2) ∈ m.slots := by
            rw [hcats]
            exact List.mem_append_right _ (List.mem_cons_of_mem _ hin)
          exact h.ids _ _ hmm

/-- Every state reachable by `park_vehicle` / `remove_vehicle` calls from
initialization satisfies the invariant. -/
theorem reachable_inv {m : ParkingLotManager} (h : Reachable m) : Inv m := by
  induction h with
  | init config hnd => exact inv_init config hnd
  | park m v now _ ih => exact inv_park ih v now
  | remove m sid _ ih => exact inv_remove ih sid

/-- If a map over `List.range n` splits as `w₁ ++ x :: w₂`, the middle
element is the image of position `w₁.length`. -/
theorem append_cons_eq_map_range {β : Type} :
    ∀ (w₁ : List β) (f : ℕ → β) (n : ℕ) (x : β) (w₂ : List β),
      (List.range n).map f = w₁ ++ x :: w₂ → x = f w₁.length := by
  intro w₁
  induction w₁ with
  | nil =>
      intro f n x w₂ h
      cases n with
      | zero => simp at h
      | succ m =>
          rw [List.range_succ_eq_map, List.map_cons] at h
          simp only [List.nil_append] at h
          injection h with h1 h2
          exact h1.symm
  | cons y w₁ ih =>
      intro f n x w₂ h
      cases n with
      | zero => simp at h
      | succ m =>
          rw [List.range_succ_eq_map, List.map_cons, List.map_map] at h
          simp only [List.cons_append] at h
          injection h with h1 h2
          exact ih (f ∘ Nat.succ) m x w₂ h2

/-!
## Claim theorems
-/

/-- C1: in every state reachable from initialization by `park_vehicle` and
`remove_vehicle` calls, for every category the number of slots with status
Occupied is at most the capacity recorded for that category in
`total_slots` at initialization. -/
theorem occupied_le_capacity (m : ParkingLotManager) (h : Reachable m)
    (vt : VehicleType) : occupiedCount m vt ≤ totalSlotsOf m vt := by
  have hinv := reachable_inv h
  rcases hd : dictGet m.slots vt with _ | l
  · rw [occupiedCount, lookupSlots, hd]
    simp
  · have hmem := dictGet_mem hd
    have hids := hinv.ids _ _ hmem
    have hlen : l.length = totalSlotsOf m vt := by
      have hc := congrArg List.length hids
      simpa [canonicalIds] using hc
    rw [occupiedCount, lookupSlots, hd]
    calc (l.countP isOccupied) ≤ l.length := List.countP_le_length _
      _ = totalSlotsOf m vt := hlen

/-- Witness for C1 at the concrete reachable state `mOne`. -/
theorem occupied_le_capacity_witness :
    occupiedCount mOne VehicleType.CAR ≤ totalSlotsOf mOne VehicleType.CAR :=
  occupied_le_capacity mOne
    (Reachable.init [(VehicleType.CAR, 1)] (by decide)) VehicleType.CAR

/-- C2: in every reachable state, every slot satisfies the three-way
equivalence: occupant reference non-null iff status Occupied iff
occupancy-start timestamp non-null. -/
theorem slot_occupancy_coherent (m : ParkingLotManager) (h : Reachable m)
    (vt : VehicleType) (l : List ParkingSlot) (s : ParkingSlot)
    (hl : (vt, l) ∈ m.slots) (hs : s ∈ l) :
    (s.vehicle ≠ none ↔ s.status = SlotStatus.OCCUPIED) ∧
    (s.status = SlotStatus.OCCUPIED ↔ s.reservation_time ≠ none) :=
  (reachable_inv h).slotinv vt l hl s hs

/-- Witness for C2 at the concrete reachable state `mParked`. -/
theorem slot_occupancy_coherent_witness :
    (slotParked.vehicle ≠ none ↔ slotParked.status = SlotStatus.OCCUPIED) ∧
    (slotParked.status = SlotStatus.OCCUPIED ↔
      slotParked.reservation_time ≠ none) :=
  slot_occupancy_coherent mParked
    (Reachable.park mOne vAlice 7200
      (Reachable.init [(VehicleType.CAR, 1)] (by decide)))
    VehicleType.CAR [slotParked] slotParked (by decide) (by decide)

/-- C7: for a non-negative duration the fee is
`max(hourly_rate, hourly_rate * duration / 3600)` with the code's constant
rate 5; a 1-second and a 3600-second stay both cost 5 (one-hour minimum)
and a 7200-second stay costs 10 (linear beyond the floor). -/
theorem fee_formula_and_values (v : Vehicle) (now : ℚ)
    (hnn : v.entry_time ≤ now) :
    get_parking_fee now v =
      max hourly_rate (hourly_rate * ((now - v.entry_time) / 3600)) ∧
    get_parking_fee (v.entry_time + 1) v = 5 ∧
    get_parking_fee (v.entry_time + 3600) v = 5 ∧
    get_parking_fee (v.entry_time + 7200) v = 10 := by
  refine ⟨?_, ?_, ?_, ?_⟩
  · rw [get_parking_fee]
    exact max_comm _ _
  · rw [get_parking_fee, show v.entry_time + 1 - v.entry_time = (1 : ℚ) from
      by ring, hourly_rate]
    rw [max_eq_right (by norm_num)]
  · rw [get_parking_fee, show v.entry_time + 3600 - v.entry_time = (3600 : ℚ)
      from by ring, hourly_rate]
    rw [show (5 : ℚ) * ((3600 : ℚ) / 3600) = 5 from by norm_num, max_self]
  · rw [get_parking_fee, show v.entry_time + 7200 - v.entry_time = (7200 : ℚ)
      from by ring, hourly_rate]
    rw [show (5 : ℚ) * ((7200 : ℚ) / 3600) = 10 from by norm_num]
    rw [max_eq_left (by norm_num)]

/-- Witness for C7 at `vAlice` (entry time 0) and exit time 3601. -/
theorem fee_formula_and_values_witness :
    get_parking_fee 3601 vAlice =
      max hourly_rate (hourly_rate * ((3601 - vAlice.entry_time) / 3600)) ∧
    get_parking_fee (vAlice.entry_time + 1) vAlice = 5 ∧
    get_parking_fee (vAlice.entry_time + 3600) vAlice = 5 ∧
    get_parking_fee (vAlice.entry_time + 7200) vAlice = 10 :=
  fee_formula_and_values vAlice 3601 (by decide)

/-- C8 counterexample: at exit time 9 for a vehicle with entry time 10
(negative duration), `get_parking_fee` does not fail — it returns the
amount 5 (the one-hour floor).  The source has no error path at all. -/
theorem fee_negative_duration_cex : get_parking_fee 9 vBob = 5 := by
  rw [get_parking_fee, hourly_rate]
  norm_num [vBob, max_def]

/-- C8 (amended): for every exit timestamp strictly earlier than the entry
timestamp, the fee computation still returns an amount, namely the one-hour
minimum `hourly_rate`; no `InvalidInterval` error exists in the code. -/
theorem fee_negative_duration_returns_floor (v : Vehicle) (now : ℚ)
    (h : now < v.entry_time) : get_parking_fee now v = hourly_rate := by
  rw [get_parking_fee]
  have hd : now - v.entry_time < 0 := by linarith
  have hneg : hourly_rate * ((now - v.entry_time) / 3600) < 0 := by
    apply mul_neg_of_pos_of_neg
    · rw [hourly_rate]; norm_num
    · exact div_neg_of_neg_of_pos hd (by norm_num)
  have h5 : (0 : ℚ) ≤ hourly_rate := by rw [hourly_rate]; norm_num
  exact max_eq_right (le_trans hneg.le h5)

/-- Witness for the amended C8 at exit time 8, entry time 10. -/
theorem fee_negative_duration_returns_floor_witness :
    get_parking_fee 8 vBob = hourly_rate :=
  fee_negative_duration_returns_floor vBob 8 (by decide)

/-- C9: the claim is the code's evident intent, but the code violates it:
`park_vehicle` opens `with self.lock:` and then calls
`find_available_slot`, which opens `with self.lock:` again on the same
non-reentrant `threading.Lock` — two nested acquisitions instead of one.
The inner acquisition blocks forever, so every `park_vehicle` call
deadlocks and never returns. -/
theorem park_sync_always_deadlocks (m : ParkingLotManager) (v : Vehicle)
    (now : ℚ) : park_vehicle_sync false m v now = none := rfl

/-- C3 counterexample: in `mParked` the CAR category exists but has no
Available slot, while MOTORCYCLE was never initialized; `park_vehicle`
returns the identical outcome `None` in both cases — there are no distinct
`Full` / `UnknownCategory` outcomes. -/
theorem park_failures_indistinguishable_cex :
    (park_vehicle mParked vBob 9000).1 = none ∧
    (park_vehicle mParked vMoto 9000).1 = none ∧
    (park_vehicle mParked vBob 9000).1 =
      (park_vehicle mParked vMoto 9000).1 := by
  refine ⟨by decide, by decide, by decide⟩

/-- C3 (amended): on failure — unknown category or no available slot,
reported alike as `None` — the pool and the caller's vehicle are left
unchanged; on success the category's occupied count increases by exactly
one. -/
theorem park_failure_no_effect_success_increments (m : ParkingLotManager)
    (v : Vehicle) (now : ℚ) :
    ((park_vehicle m v now).1 = none →
      (park_vehicle m v now).2.2 = m ∧ (park_vehicle m v now).2.1 = v) ∧
    (∀ s, (park_vehicle m v now).1 = some s →
      occupiedCount (park_vehicle m v now).2.2 v.vehicle_type =
        occupiedCount m v.vehicle_type + 1) := by
  rcases park_shape m v now with ⟨hn, hv, hst⟩ |
    ⟨l0, l₁, s, l₂, hd, hsplit, h₁n, hsA, hcap, hres, hveh, hst⟩
  · constructor
    · intro _
      exact ⟨hst, hv⟩
    · intro s2 hs2
      rw [hn] at hs2
      exact absurd hs2 (by simp)
  · constructor
    · intro hnone
      rw [hres] at hnone
      exact absurd hnone (by simp)
    · intro s2 hs2
      rw [hst]
      have hocc1 : occupiedCount (updateCategory m v.vehicle_type
          (l₁ ++ occSlot s { v with parking_slot_id := some s.slot_id } now
            :: l₂)) v.vehicle_type =
          (l₁ ++ occSlot s { v with parking_slot_id := some s.slot_id } now
            :: l₂).countP isOccupied := by
        rw [occupiedCount, lookupSlots,
          show (updateCategory m v.vehicle_type
            (l₁ ++ occSlot s { v with parking_slot_id := some s.slot_id } now
              :: l₂)).slots =
            m.slots.map (updateEntry v.vehicle_type
              (l₁ ++ occSlot s { v with parking_slot_id := some s.slot_id }
                now :: l₂)) from rfl,
          dictGet_update_self hd]
        rfl
      have hocc2 : occupiedCount m v.vehicle_type =
          l₁.countP isOccupied + l₂.countP isOccupied := by
        rw [occupiedCount, lookupSlots, hd]
        show l0.countP isOccupied = _
        rw [hsplit, List.countP_append, List.countP_cons]
        have hso : isOccupied s = false := by simp [isOccupied, hsA]
        rw [hso]
        simp
      have hocc3 : (l₁ ++ occSlot s
          { v with parking_slot_id := some s.slot_id } now :: l₂).countP
          isOccupied = l₁.countP isOccupied + l₂.countP isOccupied + 1 := by
        rw [List.countP_append, List.countP_cons]
        have hso : isOccupied (occSlot s
            { v with parking_slot_id := some s.slot_id } now) = true := by
          simp [isOccupied, occSlot]
        rw [hso]
        simp
        omega
      rw [hocc1, hocc2, hocc3]

/-- Witness for the amended C3: failure branch at the full pool `mParked`,
success branch at `mOne`. -/
theorem park_failure_no_effect_success_increments_witness :
    ((park_vehicle mParked vBob 9000).2.2 = mParked ∧
      (park_vehicle mParked vBob 9000).2.1 = vBob) ∧
    occupiedCount (park_vehicle mOne vAlice 7200).2.2 VehicleType.CAR =
      occupiedCount mOne VehicleType.CAR + 1 :=
  ⟨(park_failure_no_effect_success_increments mParked vBob 9000).1
      (by decide),
    (park_failure_no_effect_success_increments mOne vAlice 7200).2 slotParked
      (by decide)⟩

/-- C4 counterexample: in `mOne` the slot `CAR_SLOT_1` exists but is
Available (the NotOccupied case) while `GHOST` does not exist anywhere
(the NotFound case); `remove_vehicle` returns the identical outcome `None`
for both, so the two failures are not distinct.  (The state is unchanged
in both cases, as the claim says.) -/
theorem remove_failures_indistinguishable_cex :
    (remove_vehicle mOne slotIdOne).1 = none ∧
    (remove_vehicle mOne ghostId).1 = none ∧
    (remove_vehicle mOne slotIdOne).1 = (remove_vehicle mOne ghostId).1 ∧
    (remove_vehicle mOne slotIdOne).2 = mOne ∧
    (remove_vehicle mOne ghostId).2 = mOne := by
  refine ⟨by decide, by decide, by decide, by decide, by decide⟩

/-- C4 (amended): whenever no slot carrying the identifier is Occupied —
because no slot of any category has the identifier, or because every such
slot is not Occupied — `remove_vehicle` returns the one undistinguished
failure `None` and the entire slot pool is unchanged. -/
theorem remove_failure_no_effect (m : ParkingLotManager) (sid : String)
    (h : ∀ vt l, (vt, l) ∈ m.slots → ∀ s ∈ l,
      s.slot_id = sid → s.status ≠ SlotStatus.OCCUPIED) :
    (remove_vehicle m sid).1 = none ∧ (remove_vehicle m sid).2 = m := by
  rcases removeFromCategories_spec m.slots sid with ⟨hn, _⟩ |
    ⟨cats₁, vt, l₁, s, l₂, cats₂, hcats, h1, h2, hr⟩
  · constructor
    · rw [remove_vehicle]
      rw [hn]
    · rw [remove_vehicle]
      rw [hn]
  · exfalso
    have hmem : (vt, l₁ ++ s :: l₂) ∈ m.slots := by
      rw [hcats]
      exact List.mem_append_right _ (List.mem_cons_self _ _)
    exact h _ _ hmem s (List.mem_append_right _ (List.mem_cons_self _ _)) h1 h2

/-- Witness for the amended C4 at `mOne` and the never-issued id. -/
theorem remove_failure_no_effect_witness :
    (remove_vehicle mOne ghostId).1 = none ∧
    (remove_vehicle mOne ghostId).2 = mOne :=
  remove_failure_no_effect mOne ghostId (by
    intro vt l hmem s hs hsid
    have hmem2 : (vt, l) ∈
        [(VehicleType.CAR, [freshSlot VehicleType.CAR 1])] := hmem
    rcases List.mem_cons.mp hmem2 with heq | h0
    · injection heq with hv hl
      subst hl
      rcases List.mem_cons.mp hs with rfl | h0
      · decide
      · exact absurd h0 (by simp)
    · exact absurd h0 (by simp))

/-- C5 counterexample: in `mParked` the CAR slot was occupied at park time
7200 (`reservation_time`), but `remove_vehicle` returns only the vehicle,
whose `entry_time` is 0 — the vehicle-creation time; the park-time
timestamp is discarded and nothing else is returned.  The fee the caller
then computes at exit time 14400 is 20 (priced from creation time 0), while
pricing from the park-time record 7200 would give 10. -/
theorem remove_returns_creation_time_cex :
    dictGet mParked.slots VehicleType.CAR = some [slotParked] ∧
    slotParked.reservation_time = some 7200 ∧
    (remove_vehicle mParked slotIdOne).1 = some vAliceParked ∧
    vAliceParked.entry_time = 0 ∧
    get_parking_fee 14400 vAliceParked = 20 ∧
    hourly_rate * ((14400 - 7200) / 3600) = 10 := by
  refine ⟨by decide, by decide, by decide, by decide, ?_, ?_⟩
  · rw [get_parking_fee, hourly_rate]
    norm_num [vAliceParked, vAlice, max_def]
  · rw [hourly_rate]
    norm_num

/-- C5 (amended): when a slot with the identifier is Occupied,
`remove_vehicle` transitions it to Available, clears its occupant and its
occupancy-start field, and returns only the occupant (the stored `Vehicle`
value); the park-time `reservation_time` is not part of the return value —
the fee is later computed from the occupant's own `entry_time`, fixed at
vehicle creation. -/
theorem remove_success_clears_slot (m : ParkingLotManager) (sid : String)
    (v : Vehicle) (h : (remove_vehicle m sid).1 = some v) :
    ∃ cats₁ vt l₁ s l₂ cats₂,
      m.slots = cats₁ ++ (vt, l₁ ++ s :: l₂) :: cats₂ ∧
      s.slot_id = sid ∧ s.status = SlotStatus.OCCUPIED ∧
      s.vehicle = some v ∧
      (remove_vehicle m sid).1 = s.vehicle ∧
      (remove_vehicle m sid).2.slots =
        cats₁ ++ (vt, l₁ ++ clearSlot s :: l₂) :: cats₂ ∧
      (remove_vehicle m sid).2.total_slots = m.total_slots := by
  rcases removeFromCategories_spec m.slots sid with ⟨hn, _⟩ |
    ⟨cats₁, vt, l₁, s, l₂, cats₂, hcats, h1, h2, hr⟩
  · exfalso
    rw [remove_vehicle] at h
    rw [hn] at h
    exact absurd h (by simp)
  · have hret : (remove_vehicle m sid).1 = s.vehicle := by
      rw [remove_vehicle]
      rw [hr]
    have hv : s.vehicle = some v := by
      rw [hret] at h
      exact h
    have hslots : (remove_vehicle m sid).2.slots =
        cats₁ ++ (vt, l₁ ++ clearSlot s :: l₂) :: cats₂ := by
      rw [remove_vehicle]
      rw [hr]
    exact ⟨cats₁, vt, l₁, s, l₂, cats₂, hcats, h1, h2, hv, hret, hslots, rfl⟩

/-- Witness for the amended C5 at the parked pool `mParked`. -/
theorem remove_success_clears_slot_witness :
    ∃ cats₁ vt l₁ s l₂ cats₂,
      mParked.slots = cats₁ ++ (vt, l₁ ++ s :: l₂) :: cats₂ ∧
      s.slot_id = slotIdOne ∧ s.status = SlotStatus.OCCUPIED ∧
      s.vehicle = some vAliceParked ∧
      (remove_vehicle mParked slotIdOne).1 = s.vehicle ∧
      (remove_vehicle mParked slotIdOne).2.slots =
        cats₁ ++ (vt, l₁ ++ clearSlot s :: l₂) :: cats₂ ∧
      (remove_vehicle mParked slotIdOne).2.total_slots =
        mParked.total_slots :=
  remove_success_clears_slot mParked slotIdOne vAliceParked (by decide)

/-- C6: in every reachable state, the slot `find_available_slot` selects is
the first Available slot of the category's list, whose order is exactly the
creation order `CATEGORY_SLOT_1, CATEGORY_SLOT_2, ...` — so the selected
slot has the smallest sequence number among Available slots — and in the
capacity-1 scenario park / park / release / park the same identity
`CAR_SLOT_1` is issued both times. -/
theorem first_fit_lowest_id :
    (∀ m vt s, Reachable m → find_available_slot m vt = some s →
      ∃ l₁ l₂, lookupSlots m vt = l₁ ++ s :: l₂ ∧
        (∀ t ∈ l₁, t.status ≠ SlotStatus.AVAILABLE) ∧
        s.status = SlotStatus.AVAILABLE ∧
        s.slot_id = slotName vt (l₁.length + 1) ∧
        (lookupSlots m vt).map ParkingSlot.slot_id =
          canonicalIds vt (totalSlotsOf m vt)) ∧
    ((park_vehicle mOne vAlice 7200).1.map ParkingSlot.slot_id =
        some slotIdOne ∧
      (park_vehicle mParked vBob 9000).1 = none ∧
      (remove_vehicle mParked slotIdOne).1 = some vAliceParked ∧
      (park_vehicle (remove_vehicle mParked slotIdOne).2 vBob 9000).1.map
        ParkingSlot.slot_id = some slotIdOne) := by
  constructor
  · intro m vt s h hf
    have hinv := reachable_inv h
    have hex : ∃ l0, dictGet m.slots vt = some l0 := by
      rcases hdm : dictGet m.slots vt with _ | l0
      · exfalso
        rw [find_available_slot, lookupSlots, hdm] at hf
        simp at hf
      · exact ⟨l0, rfl⟩
    obtain ⟨l0, hd⟩ := hex
    have hls : lookupSlots m vt = l0 := by
      rw [lookupSlots, hd]; rfl
    have hfind : l0.find? isAvailable = some s := by
      rw [find_available_slot, hls] at hf
      exact hf
    obtain ⟨l₁, l₂, hsplit, h₁, h₂⟩ := find_eq_some_decomp isAvailable l0 s hfind
    have hsA : s.status = SlotStatus.AVAILABLE := by
      simpa [isAvailable] using h₂
    have h₁n : ∀ t ∈ l₁, t.status ≠ SlotStatus.AVAILABLE := by
      intro t ht
      have := h₁ t ht
      simpa [isAvailable] using this
    have hids0 : l0.map ParkingSlot.slot_id =
        canonicalIds vt (totalSlotsOf m vt) :=
      hinv.ids _ _ (dictGet_mem hd)
    have hids : (l₁.map ParkingSlot.slot_id) ++ s.slot_id ::
        (l₂.map ParkingSlot.slot_id) =
        (List.range (totalSlotsOf m vt)).map (fun i => slotName vt (i + 1)) := by
      have hc := hids0
      rw [hsplit] at hc
      simp only [List.map_append, List.map_cons] at hc
      rw [canonicalIds] at hc
      exact hc
    have hsid := append_cons_eq_map_range (l₁.map ParkingSlot.slot_id)
      (fun i => slotName vt (i + 1)) (totalSlotsOf m vt) s.slot_id
      (l₂.map ParkingSlot.slot_id) hids.symm
    rw [List.length_map] at hsid
    refine ⟨l₁, l₂, ?_, h₁n, hsA, hsid, ?_⟩
    · rw [hls, hsplit]
    · rw [hls]
      exact hids0
  · refine ⟨by decide, by decide, by decide, by decide⟩

/-- Witness for C6 at the freshly initialized `mOne`. -/
theorem first_fit_lowest_id_witness :
    ∃ l₁ l₂, lookupSlots mOne VehicleType.CAR = l₁ ++ slotFresh :: l₂ ∧
      (∀ t ∈ l₁, t.status ≠ SlotStatus.AVAILABLE) ∧
      slotFresh.status = SlotStatus.AVAILABLE ∧
      slotFresh.slot_id = slotName VehicleType.CAR (l₁.length + 1) ∧
      (lookupSlots mOne VehicleType.CAR).map ParkingSlot.slot_id =
        canonicalIds VehicleType.CAR (totalSlotsOf mOne VehicleType.CAR) :=
  first_fit_lowest_id.1 mOne VehicleType.CAR slotFresh
    (Reachable.init [(VehicleType.CAR, 1)] (by decide)) (by decide)

/-- C10: on a successful park the caller's vehicle record itself is
updated: its `parking_slot_id` is set to the returned slot's identifier,
and the stored occupant is that updated record; a successful
`remove_vehicle` hands back the stored occupant value untouched — in
particular `parking_slot_id` is not cleared, as the concrete run shows:
after releasing `CAR_SLOT_1` the returned vehicle still carries
`parking_slot_id = CAR_SLOT_1`. -/
theorem park_mutates_vehicle_remove_keeps_slot_id (m : ParkingLotManager)
    (v : Vehicle) (now : ℚ) (s : ParkingSlot) (m2 : ParkingLotManager)
    (sid : String) (v2 : Vehicle)
    (hp : (park_vehicle m v now).1 = some s)
    (hrm : (remove_vehicle m2 sid).1 = some v2) :
    (park_vehicle m v now).2.1 =
      { v with parking_slot_id := some s.slot_id } ∧
    s.vehicle = some { v with parking_slot_id := some s.slot_id } ∧
    (∃ vt l s2, (vt, l) ∈ m2.slots ∧ s2 ∈ l ∧ s2.slot_id = sid ∧
      s2.vehicle = some v2) ∧
    (remove_vehicle mParked slotIdOne).1 = some vAliceParked ∧
    vAliceParked.parking_slot_id = some slotIdOne := by
  rcases park_shape m v now with ⟨hn, hv, hst⟩ |
    ⟨l0, l₁, s0, l₂, hd, hsplit, h₁n, hsA, hcap, hres, hveh, hst⟩
  · rw [hn] at hp
    exact absurd hp (by simp)
  · rw [hres] at hp
    injection hp with hp
    subst hp
    refine ⟨?_, ?_, ?_, by decide, by decide⟩
    · rw [hveh]
      rfl
    · rfl
    · rcases removeFromCategories_spec m2.slots sid with ⟨hn2, _⟩ |
        ⟨cats₁, vt, l₁x, s2, l₂x, cats₂, hcats, hs1, hs2, hr⟩
      · exfalso
        rw [remove_vehicle] at hrm
        rw [hn2] at hrm
        exact absurd hrm (by simp)
      · have hret : (remove_vehicle m2 sid).1 = s2.vehicle := by
          rw [remove_vehicle]
          rw [hr]
        have hveq : s2.vehicle = some v2 := by
          rw [hret] at hrm
          exact hrm
        refine ⟨vt, l₁x ++ s2 :: l₂x, s2, ?_, ?_, hs1, hveq⟩
        · rw [hcats]
          exact List.mem_append_right _ (List.mem_cons_self _ _)
        · exact List.mem_append_right _ (List.mem_cons_self _ _)

/-- Witness for C10 on the concrete park / release run. -/
theorem park_mutates_vehicle_remove_keeps_slot_id_witness :
    (park_vehicle mOne vAlice 7200).2.1 =
      { vAlice with parking_slot_id := some slotParked.slot_id } ∧
    slotParked.vehicle =
      some { vAlice with parking_slot_id := some slotParked.slot_id } ∧
    (∃ vt l s2, (vt, l) ∈ mParked.slots ∧ s2 ∈ l ∧ s2.slot_id = slotIdOne ∧
      s2.vehicle = some vAliceParked) ∧
    (remove_vehicle mParked slotIdOne).1 = some vAliceParked ∧
    vAliceParked.parking_slot_id = some slotIdOne :=
  park_mutates_vehicle_remove_keeps_slot_id mOne vAlice 7200 slotParked
    mParked slotIdOne vAliceParked (by decide) (by decide)

end SmartParking
